import Mathlib

/-!
Verification development for the MBR shapefile generator's geometry core
(`utility.py`): ring splitting (`split_geometry`), per-area polygon
construction with winding normalization and validity repair, zone-level
multipolygon assembly (`build_multipolygon`), and the composite key
derivation (`zoneid_suffixid_combine`).

Coordinates are embedded as exact integers (the concrete inputs exercised
here are all integral).  The geometry library's topological-validity test
and make-valid repair are deep computational-geometry procedures external
to this repository; they are abstracted as a backend record (`GeoBackend`)
of deterministic functions, over which the control-flow theorems are
universally quantified.  Winding orientation (`shapely.geometry.polygon.orient`
with sign 1.0) is embedded concretely via the shoelace signed area.
-/

deriving instance DecidableEq for Except

namespace Mbr

/-- A coordinate point, the (x, y) pair of one input row. -/
abbrev Point := Int × Int

/-- The sentinel coordinate (0, 0) treated as a ring separator by
`split_geometry`. -/
def sentinel : Point := (0, 0)

/-- The scan loop of `split_geometry` (utility.py lines 44-55): accumulate
points into `current`; a sentinel emits a non-empty buffer and resets it;
a trailing non-empty buffer is emitted at the end. -/
def splitScan (coords : List Point) (current : List Point) : List (List Point) :=
  match coords with
  | [] => if current.isEmpty then [] else [current]
  | p :: rest =>
    if p = sentinel then
      if current.isEmpty then splitScan rest []
      else current :: splitScan rest []
    else
      splitScan rest (current ++ [p])

/-- The dict returned by `split_geometry`: `exterior` is `parts[0]`,
`holes` is `parts[1:]`. -/
structure GeomParts where
  exterior : List Point
  holes : List (List Point)
deriving DecidableEq, Repr

/-- `split_geometry` (utility.py lines 29-65) on the ordered coordinate
list of one area group: split on the sentinel, return `none` when no parts
were produced, else the first part as exterior and the rest as holes. -/
def split_geometry (coords : List Point) : Option GeomParts :=
  match splitScan coords [] with
  | [] => none
  | p :: rest => some ⟨p, rest⟩

/-- Specification-side splitter, written from the spec's words: the
maximal non-empty runs of points between sentinel occurrences, in order
(library `splitOnP` drops the separators; the filter drops empty runs). -/
def specRuns (coords : List Point) : List (List Point) :=
  (coords.splitOnP (fun q => decide (q = sentinel))).filter (fun r => !r.isEmpty)

/-- A pandas cell for the `suffixid` column: a string value or a missing
value (pandas `NaN`, whose `str()` form is `"nan"`). -/
inductive Cell where
  | val (s : String)
  | absent
deriving DecidableEq, Repr

/-- Python `str()` of a suffix cell; a missing pandas value prints as
`"nan"`. -/
def cellStr : Cell → String
  | .val s => s
  | .absent => "nan"

/-- Python `str.strip()`: remove whitespace from both ends (defined over
the character list so it evaluates by kernel reduction). -/
def pyStrip (s : String) : String :=
  ⟨((s.data.dropWhile Char.isWhitespace).reverse.dropWhile Char.isWhitespace).reverse⟩

/-- Python `str.upper()` (per-character upper-casing). -/
def pyUpper (s : String) : String :=
  ⟨s.data.map Char.toUpper⟩

/-- `zoneid_suffixid_combine` (utility.py lines 14-27): test the trimmed,
upper-cased suffix against the null-like literals, return the zone id
alone on a match and otherwise append the verbatim suffix after an
underscore.  The source also lists Python `None` in the membership test,
but `str(...)` never equals `None`, so that disjunct is vacuous and is
not modelled. -/
def zoneid_suffixid_combine (zoneid : String) (suffixid : Cell) : String :=
  if pyUpper (pyStrip (cellStr suffixid)) = "NONE"
      ∨ pyUpper (pyStrip (cellStr suffixid)) = ""
      ∨ pyUpper (pyStrip (cellStr suffixid)) = "NULL"
      ∨ pyUpper (pyStrip (cellStr suffixid)) = "NAN" then
    zoneid
  else
    zoneid ++ "_" ++ cellStr suffixid

/-- Cross term of the shoelace formula. -/
def cross (p q : Point) : Int := p.1 * q.2 - q.1 * p.2

/-- Sum of shoelace cross terms over adjacent pairs of a (non-cyclic)
path. -/
def pathSum : List Point → Int
  | p :: q :: rest => cross p q + pathSum (q :: rest)
  | _ => 0

/-- Twice the signed area of a ring (Gauss shoelace formula, closing the
ring by returning to its first point); positive for counter-clockwise
traversal.  This is the sign convention of `shapely`'s `signed_area`. -/
def signedArea2 (r : List Point) : Int := pathSum (r ++ r.take 1)

/-- Exterior-ring branch of `shapely.geometry.polygon.orient` with
sign 1.0: keep the ring when its signed area is non-negative, otherwise
reverse it. -/
def orientExterior (r : List Point) : List Point :=
  if 0 ≤ signedArea2 r then r else r.reverse

/-- Hole-ring branch of `shapely.geometry.polygon.orient` with sign 1.0:
keep the ring when its signed area is non-positive, otherwise reverse
it. -/
def orientHole (r : List Point) : List Point :=
  if signedArea2 r ≤ 0 then r else r.reverse

/-- A shapely `Polygon`: one exterior ring and a list of interior (hole)
rings. -/
structure Poly where
  exterior : List Point
  holes : List (List Point)
deriving DecidableEq, Repr

/-- `orient(poly, sign=1.0)` (utility.py line 90). -/
def orientPoly (p : Poly) : Poly :=
  ⟨orientExterior p.exterior, p.holes.map orientHole⟩

/-- Constructibility of a shapely `LinearRing` from a coordinate list: an
empty list yields an empty ring; otherwise the ring (auto-closed when its
first and last points differ) must have at least 4 coordinates after
closing, i.e. at least 3 supplied points for an unclosed trace. -/
def ringOk (r : List Point) : Bool :=
  r.isEmpty ||
    (if r.head? = r.getLast? then decide (4 ≤ r.length) else decide (3 ≤ r.length))

/-- Exceptions the assembly can raise: the `LinearRing` constructor error
on a degenerate ring (utility.py line 89), and the `MultiPolygon`
constructor error on a non-`Polygon` member (utility.py line 116). -/
inductive GeomError where
  | ringError
  | multiError
deriving DecidableEq, Repr

/-- `Polygon(exterior, holes=holes)` (utility.py line 89): raises when any
ring is not constructible as a linear ring. -/
def mkPolygon (ext : List Point) (holes : List (List Point)) : Except GeomError Poly :=
  if ringOk ext && holes.all ringOk then .ok ⟨ext, holes⟩ else .error .ringError

/-- An atomic shapely geometry, as can appear as a `make_valid` result or
a `GeometryCollection` member: point, line, polygon or multipolygon. -/
inductive GAtom where
  | point (p : Point)
  | line (ps : List Point)
  | poly (p : Poly)
  | multipoly (ps : List Poly)
deriving DecidableEq, Repr

/-- A shapely geometry as returned by `make_valid`: an atom or a
`GeometryCollection` of atoms. -/
inductive Geom where
  | atom (a : GAtom)
  | collection (gs : List GAtom)
deriving DecidableEq, Repr

/-- Shapely `is_empty` on an atomic geometry: a point is never empty, a
line is empty without coordinates, a polygon is empty without an exterior,
a multipolygon is empty when it has no non-empty member. -/
def atomIsEmpty : GAtom → Bool
  | .point _ => false
  | .line ps => ps.isEmpty
  | .poly p => p.exterior.isEmpty
  | .multipoly ps => ps.all (fun p => p.exterior.isEmpty)

/-- Shapely `is_empty` on a geometry. -/
def geomIsEmpty : Geom → Bool
  | .atom a => atomIsEmpty a
  | .collection gs => gs.all atomIsEmpty

/-- The `isinstance(geom, (Polygon, MultiPolygon))` test of utility.py
line 101. -/
def atomPolyLike : GAtom → Bool
  | .poly _ => true
  | .multipoly _ => true
  | _ => false

/-- The list comprehension of utility.py line 101: keep the non-empty
polygon or multipolygon members of a `GeometryCollection`. -/
def extractAtoms (gs : List GAtom) : List GAtom :=
  gs.filter (fun a => atomPolyLike a && !atomIsEmpty a)

/-- The geometry library's deep predicates, abstracted: `validG` is GEOS
`is_valid` on an atomic geometry, `makeValid` is `make_valid` on a
polygon (utility.py lines 95-98 select one of two library variants by
version; both are covered by this single abstract function). -/
structure GeoBackend where
  validG : GAtom → Bool
  makeValid : Poly → Geom

/-- The per-area body of `build_multipolygon` after polygon construction
and orientation (utility.py lines 91-110), given the oriented polygon:
when valid, append it if non-empty; when invalid, repair once, extract
from a collection result, or append a non-collection repair result if it
is valid and non-empty. -/
def afterConstruct (B : GeoBackend) (p1 : Poly) : List GAtom :=
  if B.validG (.poly p1) then
    if atomIsEmpty (.poly p1) then [] else [GAtom.poly p1]
  else
    match B.makeValid p1 with
    | .collection gs => extractAtoms gs
    | .atom a => if B.validG a && !atomIsEmpty a then [a] else []

/-- One input row, restricted to the columns `build_multipolygon` reads:
area number, sequence number and the coordinate pair.  (The data frame is
already filtered to a single composite zone key.) -/
structure Record where
  areanumber : Int
  seqno : Int
  x : Int
  y : Int
deriving DecidableEq, Repr

/-- The coordinate list `df[['x', 'y']].values.tolist()` of a group. -/
def coordsOf (g : List Record) : List Point :=
  g.map (fun r => (r.x, r.y))

/-- One area group of the zone's rows, sorted by sequence number
ascending (utility.py lines 84-85; the sort is imposed unconditionally). -/
def areaGroup (rs : List Record) (a : Int) : List Record :=
  List.insertionSort (fun r s => r.seqno ≤ s.seqno)
    (rs.filter (fun r => decide (r.areanumber = a)))

/-- The distinct area numbers of the zone in ascending order (pandas
`groupby` iterates keys sorted). -/
def areaKeys (rs : List Record) : List Int :=
  List.insertionSort (· ≤ ·) (rs.map Record.areanumber).dedup

/-- Processing of one sorted area group (utility.py lines 86-110):
split the coordinates, construct and orient the polygon — a degenerate
ring raises, and nothing catches it — then run validity check and repair.
Returns the atoms this area contributes to the zone's polygon list. -/
def processArea (B : GeoBackend) (g : List Record) : Except GeomError (List GAtom) :=
  match split_geometry (coordsOf g) with
  | none => .ok []
  | some parts =>
    match mkPolygon parts.exterior parts.holes with
    | .error e => .error e
    | .ok p0 => .ok (afterConstruct B (orientPoly p0))

/-- The loop of utility.py lines 84-110 over all area groups, collecting
every contributed atom in group order; the first uncaught exception
aborts the whole zone. -/
def collectAreas (B : GeoBackend) : List (List Record) → Except GeomError (List GAtom)
  | [] => .ok []
  | g :: rest =>
    match processArea B g with
    | .error e => .error e
    | .ok ps =>
      match collectAreas B rest with
      | .error e => .error e
      | .ok qs => .ok (ps ++ qs)

/-- The member check of the shapely `MultiPolygon` constructor: every
member must be a `Polygon`; anything else raises. -/
def allPolys : List GAtom → Except GeomError (List Poly)
  | [] => .ok []
  | .poly p :: rest => (allPolys rest).map (fun ps => p :: ps)
  | _ :: _ => .error .multiError

/-- `MultiPolygon(polygons)` (utility.py line 116). -/
def mkMultiPolygon (gs : List GAtom) : Except GeomError GAtom :=
  (allPolys gs).map GAtom.multipoly

/-- `build_multipolygon` (utility.py lines 68-116) on the rows of one
composite zone key: group by area number, sort each group by sequence
number, process each group, then return `none` for an empty collection,
the single collected geometry as-is, or a multipolygon of the collected
members. -/
def build_multipolygon (B : GeoBackend) (rs : List Record) : Except GeomError (Option Geom) :=
  match collectAreas B ((areaKeys rs).map (fun a => areaGroup rs a)) with
  | .error e => .error e
  | .ok [] => .ok none
  | .ok [g] => .ok (some (.atom g))
  | .ok gs => (mkMultiPolygon gs).map (fun m => some (.atom m))

/-- The oriented polygon constructed for one sorted area group, when
construction succeeds (utility.py lines 86-90); `none` when the group
yields no parts or a ring is degenerate. -/
def areaOriented (g : List Record) : Option Poly :=
  match split_geometry (coordsOf g) with
  | none => none
  | some parts =>
    match mkPolygon parts.exterior parts.holes with
    | .error _ => none
    | .ok p0 => some (orientPoly p0)

/-- An area group whose split parts contain a ring the `LinearRing`
constructor rejects. -/
def badParts (g : List Record) : Prop :=
  ∃ parts, split_geometry (coordsOf g) = some parts
    ∧ (ringOk parts.exterior && parts.holes.all ringOk) = false

/-- A backend on which every polygon is valid (repair is then never
consulted). -/
def trivialBackend : GeoBackend :=
  ⟨fun _ => true, fun p => .atom (.poly p)⟩

/-- A backend on which every polygon is invalid and repair returns a
collection holding a single point fragment. -/
def collectBackend : GeoBackend :=
  ⟨fun _ => false, fun _ => .collection [.point (5, 5)]⟩

/-- Last point of a ring, with the origin as default. -/
def lastPt (l : List Point) : Point := l.getLastD (0, 0)

/-- First point of a ring, with the origin as default. -/
def headPt (l : List Point) : Point := l.headD (0, 0)

/-- A zone with a single area whose only ring has two points. -/
def twoPointRecs : List Record := [⟨1, 1, 1, 1⟩, ⟨1, 2, 2, 2⟩]

/-- A zone with one area tracing a counter-clockwise square. -/
def squareRecs : List Record :=
  [⟨1, 1, 1, 1⟩, ⟨1, 2, 9, 1⟩, ⟨1, 3, 9, 9⟩, ⟨1, 4, 1, 9⟩]

/-- A zone with one area: a large square, a sentinel, then a smaller
square fully inside it. -/
def nestedRecs : List Record :=
  [⟨1, 1, 1, 1⟩, ⟨1, 2, 9, 1⟩, ⟨1, 3, 9, 9⟩, ⟨1, 4, 1, 9⟩, ⟨1, 5, 0, 0⟩,
   ⟨1, 6, 3, 3⟩, ⟨1, 7, 7, 3⟩, ⟨1, 8, 7, 7⟩, ⟨1, 9, 3, 7⟩]

/-- A zone with one area: a square exterior and a degenerate collinear
hole of three distinct points (its signed area is zero). -/
def collinearHoleRecs : List Record :=
  [⟨1, 1, 1, 1⟩, ⟨1, 2, 9, 1⟩, ⟨1, 3, 9, 9⟩, ⟨1, 4, 1, 9⟩, ⟨1, 5, 0, 0⟩,
   ⟨1, 6, 2, 2⟩, ⟨1, 7, 4, 4⟩, ⟨1, 8, 6, 6⟩]

/-- A zone with one area whose only ring has three distinct collinear
points: it constructs (3-point open trace) but its signed area is zero. -/
def collinearExtRecs : List Record :=
  [⟨1, 1, 1, 1⟩, ⟨1, 2, 2, 2⟩, ⟨1, 3, 3, 3⟩]

/-- A zone with one area tracing a self-intersecting bowtie ring. -/
def bowtieRecs : List Record :=
  [⟨1, 1, 1, 1⟩, ⟨1, 2, 3, 3⟩, ⟨1, 3, 3, 1⟩, ⟨1, 4, 1, 3⟩]

/-- A zone with two areas: area 1 has a degenerate two-point ring, area 2
a valid square. -/
def twoAreaRecs : List Record :=
  [⟨1, 1, 1, 1⟩, ⟨1, 2, 2, 2⟩, ⟨2, 1, 4, 4⟩, ⟨2, 2, 6, 4⟩, ⟨2, 3, 6, 6⟩, ⟨2, 4, 4, 6⟩]

/-- A zone with two areas carrying valid disjoint geometry. -/
def twoGoodRecs : List Record :=
  [⟨1, 1, 1, 1⟩, ⟨1, 2, 2, 1⟩, ⟨1, 3, 2, 2⟩,
   ⟨2, 1, 4, 4⟩, ⟨2, 2, 6, 4⟩, ⟨2, 3, 6, 6⟩, ⟨2, 4, 4, 6⟩]

theorem modifyHead_self {α : Type} (l : List α) :
    l.modifyHead (fun r => r) = l := by
  cases l <;> simp

theorem modifyHead_append_nil {α : Type} (l : List (List α)) :
    l.modifyHead (fun r => ([] : List α) ++ r) = l := by
  cases l <;> simp

/-- The scan loop agrees with splitting on the sentinel and dropping
empty chunks, with the pending buffer prepended to the first chunk. -/
theorem splitScan_eq (coords : List Point) (current : List Point) :
    splitScan coords current
      = ((coords.splitOnP (fun q => decide (q = sentinel))).modifyHead
          (fun r => current ++ r)).filter (fun r => !r.isEmpty) := by
  induction coords generalizing current with
  | nil =>
    cases current with
    | nil => simp [splitScan]
    | cons a t => simp [splitScan]
  | cons p rest ih =>
    by_cases hp : p = sentinel
    · subst hp
      cases current with
      | nil =>
        simp [splitScan, List.splitOnP_cons, ih, modifyHead_self]
      | cons a t =>
        simp [splitScan, List.splitOnP_cons, ih, modifyHead_self]
    · have hL : splitScan (p :: rest) current = splitScan rest (current ++ [p]) := by
        simp [splitScan, hp]
      have hd : (decide (p = sentinel)) = false := by simp [hp]
      rw [hL, ih, List.splitOnP_cons, hd]
      simp only [Bool.false_eq_true, if_false, List.modifyHead_modifyHead]
      have hfun : ((fun r => current ++ r) ∘ List.cons p)
          = fun r : List Point => (current ++ [p]) ++ r := by
        funext r
        simp
      rw [hfun]

/-- The scan loop started with an empty buffer produces exactly the
specification-side runs. -/
theorem splitScan_runs (coords : List Point) :
    splitScan coords [] = specRuns coords := by
  rw [splitScan_eq, specRuns, modifyHead_append_nil]

theorem cross_skew (p q : Point) : cross p q = - cross q p := by
  unfold cross
  ring

theorem lastPt_cons (x y : Point) (t : List Point) :
    lastPt (x :: y :: t) = lastPt (y :: t) := by
  simp [lastPt, List.getLastD_cons]

theorem lastPt_reverse (l : List Point) : lastPt l.reverse = headPt l := by
  cases l with
  | nil => rfl
  | cons x t => simp [lastPt, headPt, List.getLastD_concat]

theorem headPt_reverse (l : List Point) : headPt l.reverse = lastPt l := by
  have h := lastPt_reverse l.reverse
  rw [List.reverse_reverse] at h
  exact h.symm

theorem pathSum_concat (l : List Point) (a : Point) (h : l ≠ []) :
    pathSum (l ++ [a]) = pathSum l + cross (lastPt l) a := by
  induction l with
  | nil => exact absurd rfl h
  | cons x t ih =>
    cases t with
    | nil => simp [pathSum, lastPt, List.getLastD_cons]
    | cons y t' =>
      have hstep : pathSum ((x :: y :: t') ++ [a])
          = cross x y + pathSum ((y :: t') ++ [a]) := by
        simp [pathSum]
      rw [hstep, ih (by simp), lastPt_cons]
      have : pathSum (x :: y :: t') = cross x y + pathSum (y :: t') := by
        simp [pathSum]
      rw [this]
      ring

theorem pathSum_reverse (l : List Point) : pathSum l.reverse = - pathSum l := by
  induction l with
  | nil => simp [pathSum]
  | cons p t ih =>
    cases t with
    | nil => simp [pathSum]
    | cons q t' =>
      have hrev : (p :: q :: t').reverse = ((q :: t').reverse) ++ [p] := by
        simp
      rw [hrev, pathSum_concat _ _ (by simp), ih, lastPt_reverse]
      have hhead : headPt (q :: t') = q := rfl
      have hp : pathSum (p :: q :: t') = cross p q + pathSum (q :: t') := by
        simp [pathSum]
      rw [hhead, hp, cross_skew q p]
      ring

theorem take_one_headPt (l : List Point) (h : l ≠ []) : l.take 1 = [headPt l] := by
  cases l with
  | nil => exact absurd rfl h
  | cons x t => rfl

theorem signedArea2_reverse (r : List Point) :
    signedArea2 r.reverse = - signedArea2 r := by
  cases r with
  | nil => simp [signedArea2, pathSum]
  | cons p t =>
    have hne : p :: t ≠ [] := by simp
    have hner : (p :: t).reverse ≠ [] := by simp
    unfold signedArea2
    rw [take_one_headPt _ hne, take_one_headPt _ hner, headPt_reverse,
      pathSum_concat _ _ hne, pathSum_concat _ _ hner, pathSum_reverse,
      lastPt_reverse]
    rw [cross_skew (headPt (p :: t)) (lastPt (p :: t))]
    ring

theorem orientExterior_nonneg (r : List Point) :
    0 ≤ signedArea2 (orientExterior r) := by
  unfold orientExterior
  split
  · assumption
  · rw [signedArea2_reverse]
    omega

theorem orientExterior_pos (r : List Point) (h : signedArea2 r ≠ 0) :
    0 < signedArea2 (orientExterior r) := by
  unfold orientExterior
  split
  · omega
  · rw [signedArea2_reverse]
    omega

theorem orientExterior_reverse (r : List Point) :
    signedArea2 (orientExterior r.reverse) = signedArea2 (orientExterior r) := by
  have hrev := signedArea2_reverse r
  unfold orientExterior
  rcases lt_trichotomy (signedArea2 r) 0 with h | h | h
  · rw [if_pos (show (0 : Int) ≤ signedArea2 r.reverse by omega), if_neg (by omega)]
  · rw [if_pos (show (0 : Int) ≤ signedArea2 r.reverse by omega), if_pos (by omega),
      hrev, h]
    simp
  · rw [if_neg (show ¬ (0 : Int) ≤ signedArea2 r.reverse by omega), if_pos (by omega),
      List.reverse_reverse]

theorem orientHole_nonpos (r : List Point) :
    signedArea2 (orientHole r) ≤ 0 := by
  unfold orientHole
  split
  · assumption
  · rw [signedArea2_reverse]
    omega

theorem orientHole_neg (r : List Point) (h : signedArea2 r ≠ 0) :
    signedArea2 (orientHole r) < 0 := by
  unfold orientHole
  split
  · omega
  · rw [signedArea2_reverse]
    omega

/-- When construction succeeds, an area's processing result is exactly the
validity-and-repair continuation applied to the oriented polygon. -/
theorem processArea_of_oriented (B : GeoBackend) (g : List Record) (p1 : Poly)
    (h : areaOriented g = some p1) :
    processArea B g = .ok (afterConstruct B p1) := by
  unfold areaOriented at h
  unfold processArea
  split at h
  · exact absurd h (by simp)
  · rename_i parts hs
    split at h
    · exact absurd h (by simp)
    · rename_i p0 hm
      simp only [Option.some.injEq] at h
      simp [hs, hm, h]

theorem areaOriented_shape (g : List Record) (p : Poly)
    (h : areaOriented g = some p) :
    ∃ parts, split_geometry (coordsOf g) = some parts
      ∧ p = orientPoly ⟨parts.exterior, parts.holes⟩ := by
  unfold areaOriented at h
  split at h
  · exact absurd h (by simp)
  · rename_i parts hs
    split at h
    · exact absurd h (by simp)
    · rename_i p0 hm
      simp only [Option.some.injEq] at h
      refine ⟨parts, hs, ?_⟩
      unfold mkPolygon at hm
      split at hm
      · cases hm
        exact h.symm
      · cases hm

theorem processArea_badParts (B : GeoBackend) (g : List Record)
    (h : badParts g) : processArea B g = .error .ringError := by
  obtain ⟨parts, hs, hbad⟩ := h
  unfold processArea mkPolygon
  simp [hs, hbad]

theorem collectAreas_error_of_mem (B : GeoBackend) (gs : List (List Record))
    (g : List Record) (hg : g ∈ gs)
    (hpe : processArea B g = .error .ringError) :
    ∃ e, collectAreas B gs = .error e := by
  induction gs with
  | nil => exact absurd hg (by simp)
  | cons g0 rest ih =>
    rcases List.mem_cons.mp hg with rfl | hmem
    · exact ⟨.ringError, by simp [collectAreas, hpe]⟩
    · cases hp0 : processArea B g0 with
      | error e => exact ⟨e, by simp [collectAreas, hp0]⟩
      | ok ps =>
        obtain ⟨e, he⟩ := ih hmem
        exact ⟨e, by simp [collectAreas, hp0, he]⟩

theorem allPolys_map (ps : List Poly) :
    allPolys (ps.map GAtom.poly) = .ok ps := by
  induction ps with
  | nil => rfl
  | cons p rest ih => simp [allPolys, ih, Except.map]

theorem allPolys_shape (gs : List GAtom) (ps : List Poly)
    (h : allPolys gs = .ok ps) : gs = ps.map GAtom.poly := by
  induction gs generalizing ps with
  | nil =>
    simp only [allPolys] at h
    cases h
    rfl
  | cons a rest ih =>
    cases a with
    | poly p =>
      simp only [allPolys] at h
      cases hrest : allPolys rest with
      | error e => rw [hrest] at h; simp [Except.map] at h
      | ok qs =>
        rw [hrest] at h
        simp only [Except.map, Except.ok.injEq] at h
        subst h
        simp [ih qs hrest]
    | point p => simp [allPolys] at h
    | line l => simp [allPolys] at h
    | multipoly m => simp [allPolys] at h

theorem afterConstruct_nonempty (B : GeoBackend) (p1 : Poly) :
    ∀ a ∈ afterConstruct B p1, atomIsEmpty a = false := by
  intro a ha
  unfold afterConstruct at ha
  split at ha
  · split at ha
    · exact absurd ha (by simp)
    · rename_i hne
      simp only [List.mem_singleton] at ha
      subst ha
      simpa using hne
  · split at ha
    · rename_i gs hM
      unfold extractAtoms at ha
      have := (List.mem_filter.mp ha).2
      simp only [Bool.and_eq_true, Bool.not_eq_true'] at this
      exact this.2
    · rename_i a' hM
      split at ha
      · rename_i hcond
        simp only [List.mem_singleton] at ha
        subst ha
        simp only [Bool.and_eq_true, Bool.not_eq_true'] at hcond
        exact hcond.2
      · exact absurd ha (by simp)

theorem processArea_nonempty (B : GeoBackend) (g : List Record)
    (ps : List GAtom) (h : processArea B g = .ok ps) :
    ∀ a ∈ ps, atomIsEmpty a = false := by
  unfold processArea at h
  split at h
  · cases h
    simp
  · split at h
    · cases h
    · cases h
      exact afterConstruct_nonempty B _

theorem collectAreas_nonempty (B : GeoBackend) (gs : List (List Record))
    (ps : List GAtom) (h : collectAreas B gs = .ok ps) :
    ∀ a ∈ ps, atomIsEmpty a = false := by
  induction gs generalizing ps with
  | nil =>
    simp only [collectAreas] at h
    cases h
    simp
  | cons g0 rest ih =>
    simp only [collectAreas] at h
    split at h
    · cases h
    · rename_i ps0 hp0
      split at h
      · cases h
      · rename_i qs hq
        cases h
        intro a ha
        rcases List.mem_append.mp ha with hmem | hmem
        · exact processArea_nonempty B g0 ps0 hp0 a hmem
        · exact ih qs hq a hmem

/-- C4: for every ordered point sequence the splitter emits exactly the
maximal non-empty runs of points between (0,0) sentinels, in order: the
scan equals splitting on the sentinel with empty chunks dropped, so a
sentinel closes only a non-empty buffer, a trailing non-empty buffer
becomes a final ring, and leading/trailing/consecutive sentinels yield no
empty rings; if no run remains (empty input or only sentinels) the result
is the explicit no-rings value `none`. -/
theorem c4_ring_splitter :
    (∀ coords : List Point, splitScan coords [] = specRuns coords)
    ∧ (∀ coords : List Point, split_geometry coords = none ↔ specRuns coords = [])
    ∧ split_geometry [(0, 0), (0, 0), (1, 1), (2, 2), (0, 0), (0, 0)]
        = some ⟨[(1, 1), (2, 2)], []⟩ := by
  refine ⟨splitScan_runs, ?_, by decide⟩
  intro coords
  unfold split_geometry
  rw [splitScan_runs]
  cases hs : specRuns coords with
  | nil => simp
  | cons p rest => simp

/-- C6: for every point sequence whose split succeeds, the first emitted
ring is the designated exterior and all subsequent rings are the holes;
for the concrete two nested squares (larger first, counter-clockwise) the
built area polygon's exterior equals the first ring's trace and its hole
set has exactly one member. -/
theorem c6_exterior_hole_assignment :
    (∀ (coords : List Point) (parts : GeomParts),
        split_geometry coords = some parts →
        specRuns coords = parts.exterior :: parts.holes)
    ∧ (areaOriented nestedRecs).map Poly.exterior
        = some [(1, 1), (9, 1), (9, 9), (1, 9)]
    ∧ (areaOriented nestedRecs).map (fun p => p.holes.length) = some 1 := by
  refine ⟨?_, by decide, by decide⟩
  intro coords parts h
  rw [← splitScan_runs]
  unfold split_geometry at h
  split at h
  · exact absurd h (by simp)
  · rename_i p rest heq
    simp only [Option.some.injEq] at h
    rw [heq, ← h]

/-- Witness for C6 at the nested-squares zone: the runs are the larger
square followed by the smaller one. -/
theorem c6_exterior_hole_assignment_witness :
    specRuns (coordsOf nestedRecs)
      = [(1, 1), (9, 1), (9, 9), (1, 9)] :: [[(3, 3), (7, 3), (7, 7), (3, 7)]] :=
  c6_exterior_hole_assignment.1 (coordsOf nestedRecs)
    ⟨[(1, 1), (9, 1), (9, 9), (1, 9)], [[(3, 3), (7, 3), (7, 7), (3, 7)]]⟩
    (by decide)

/-- C8: the composite key equals the zone identifier alone exactly when
the trimmed, upper-cased suffix is empty or one of the literals NONE,
NULL, NAN, or the suffix cell is absent; otherwise it is the zone
identifier, an underscore, and the suffix in its original casing. -/
theorem c8_composite_key (zoneid : String) (suffixid : Cell) :
    ((pyUpper (pyStrip (cellStr suffixid)) = "NONE"
        ∨ pyUpper (pyStrip (cellStr suffixid)) = ""
        ∨ pyUpper (pyStrip (cellStr suffixid)) = "NULL"
        ∨ pyUpper (pyStrip (cellStr suffixid)) = "NAN"
        ∨ suffixid = Cell.absent) →
      zoneid_suffixid_combine zoneid suffixid = zoneid)
    ∧ (¬ (pyUpper (pyStrip (cellStr suffixid)) = "NONE"
        ∨ pyUpper (pyStrip (cellStr suffixid)) = ""
        ∨ pyUpper (pyStrip (cellStr suffixid)) = "NULL"
        ∨ pyUpper (pyStrip (cellStr suffixid)) = "NAN") →
      zoneid_suffixid_combine zoneid suffixid
        = zoneid ++ "_" ++ cellStr suffixid) := by
  constructor
  · intro h
    unfold zoneid_suffixid_combine
    rcases h with h | h | h | h | h
    · rw [if_pos (Or.inl h)]
    · rw [if_pos (Or.inr (Or.inl h))]
    · rw [if_pos (Or.inr (Or.inr (Or.inl h)))]
    · rw [if_pos (Or.inr (Or.inr (Or.inr h)))]
    · subst h
      rw [if_pos (by decide)]
  · intro h
    unfold zoneid_suffixid_combine
    rw [if_neg h]

/-- Witness for C8: a null-like suffix, an absent suffix, and a genuine
suffix kept in its original casing. -/
theorem c8_composite_key_witness :
    zoneid_suffixid_combine "Z7" (Cell.val " none ") = "Z7"
    ∧ zoneid_suffixid_combine "Z7" Cell.absent = "Z7"
    ∧ zoneid_suffixid_combine "Z7" (Cell.val "aB") = "Z7_aB" :=
  ⟨(c8_composite_key "Z7" (Cell.val " none ")).1 (Or.inl (by decide)),
   (c8_composite_key "Z7" Cell.absent).1 (Or.inr (Or.inr (Or.inr (Or.inr rfl)))),
   (c8_composite_key "Z7" (Cell.val "aB")).2 (by decide)⟩

/-- C1 counterexample: a zone whose only area group has two distinct
points (fewer than 3) does not yield the absent result — the linear-ring
constructor error escapes `build_multipolygon` uncontained, since the
source wraps no try/except around polygon construction. -/
theorem c1_ring_failure_not_contained_cex :
    build_multipolygon trivialBackend twoPointRecs = .error .ringError
    ∧ build_multipolygon trivialBackend twoPointRecs ≠ .ok none := by
  decide

/-- C1 amended: ring-construction failure is not contained: for every
backend and zone input, if any area group's split parts contain a ring
the linear-ring constructor rejects, the assembler raises — the zone
returns an error, aborting sibling area groups, rather than treating the
failed area as contributing nothing. -/
theorem c1_ring_failure_propagates (B : GeoBackend) (rs : List Record) (a : Int)
    (ha : a ∈ areaKeys rs) (hb : badParts (areaGroup rs a)) :
    ∃ e, build_multipolygon B rs = .error e := by
  have hmem : areaGroup rs a ∈ (areaKeys rs).map (fun a => areaGroup rs a) :=
    List.mem_map_of_mem _ ha
  obtain ⟨e, he⟩ :=
    collectAreas_error_of_mem B _ _ hmem (processArea_badParts B _ hb)
  exact ⟨e, by unfold build_multipolygon; rw [he]⟩

/-- Witness for amended C1: a zone with a degenerate area 1 and a valid
area 2 errors as a whole. -/
theorem c1_ring_failure_propagates_witness :
    ∃ e, build_multipolygon trivialBackend twoAreaRecs = .error e :=
  c1_ring_failure_propagates trivialBackend twoAreaRecs 1 (by decide)
    ⟨⟨[(1, 1), (2, 2)], []⟩, by decide, by decide⟩

/-- C2: repair policy for an area whose polygon constructs: processing
never fails past construction; the result depends on the repair function
only through its single value at the oriented polygon (and not at all
when the polygon is valid), so repair is applied exactly once per invalid
polygon; a mixed-collection repair result is filtered to its non-empty
polygon/multipolygon members; and when no member survives the area
contributes nothing, non-fatally. -/
theorem c2_repair_policy (B B' : GeoBackend) (g : List Record) (p1 : Poly)
    (h : areaOriented g = some p1) :
    (∃ ps, processArea B g = .ok ps)
    ∧ (B.validG = B'.validG → B.makeValid p1 = B'.makeValid p1 →
        processArea B g = processArea B' g)
    ∧ (B.validG (.poly p1) = true → B.validG = B'.validG →
        processArea B g = processArea B' g)
    ∧ (∀ gs, B.validG (.poly p1) = false → B.makeValid p1 = .collection gs →
        processArea B g = .ok (extractAtoms gs)
        ∧ (∀ a, a ∈ extractAtoms gs ↔
            a ∈ gs ∧ atomPolyLike a = true ∧ atomIsEmpty a = false)
        ∧ ((∀ a ∈ gs, atomPolyLike a = true → atomIsEmpty a = true) →
            processArea B g = .ok [])) := by
  have hB := processArea_of_oriented B g p1 h
  have hB' := processArea_of_oriented B' g p1 h
  refine ⟨⟨_, hB⟩, ?_, ?_, ?_⟩
  · intro hv hm
    rw [hB, hB']
    unfold afterConstruct
    rw [hv, hm]
  · intro hvalid hv
    rw [hB, hB']
    unfold afterConstruct
    rw [hv] at hvalid
    rw [hv]
    simp [hvalid]
  · intro gs hinv hcol
    have hrun : processArea B g = .ok (extractAtoms gs) := by
      rw [hB]
      unfold afterConstruct
      simp [hinv, hcol]
    refine ⟨hrun, ?_, ?_⟩
    · intro a
      unfold extractAtoms
      simp [List.mem_filter, Bool.and_eq_true, Bool.not_eq_true', and_assoc]
    · intro hall
      rw [hrun]
      congr 1
      unfold extractAtoms
      apply List.filter_eq_nil_iff.mpr
      intro a ha
      simpa using hall a ha

/-- Witness for C2: a bowtie area on a backend that judges it invalid and
repairs it to a collection holding only a point fragment processes to the
empty contribution, without error. -/
theorem c2_repair_policy_witness :
    processArea collectBackend bowtieRecs = .ok (extractAtoms [GAtom.point (5, 5)])
    ∧ processArea collectBackend bowtieRecs = .ok [] := by
  have h := c2_repair_policy collectBackend collectBackend bowtieRecs
    ⟨[(1, 1), (3, 3), (3, 1), (1, 3)], []⟩ (by decide)
  obtain ⟨-, -, -, h4⟩ := h
  obtain ⟨ha, -, hc⟩ := h4 [GAtom.point (5, 5)] rfl rfl
  exact ⟨ha, hc (by decide)⟩

/-- C3: result shape of zone assembly: an empty collection yields the
absent result, a single collected geometry is returned as-is (not
wrapped), and two or more collected polygons yield one multipolygon
containing exactly the collected polygons. -/
theorem c3_result_shape (B : GeoBackend) (rs : List Record) :
    (collectAreas B ((areaKeys rs).map (fun a => areaGroup rs a)) = .ok [] →
      build_multipolygon B rs = .ok none)
    ∧ (∀ g : GAtom,
        collectAreas B ((areaKeys rs).map (fun a => areaGroup rs a)) = .ok [g] →
        build_multipolygon B rs = .ok (some (.atom g)))
    ∧ (∀ (gs : List GAtom) (ps : List Poly), 2 ≤ gs.length →
        collectAreas B ((areaKeys rs).map (fun a => areaGroup rs a)) = .ok gs →
        allPolys gs = .ok ps →
        build_multipolygon B rs = .ok (some (.atom (.multipoly ps)))) := by
  refine ⟨?_, ?_, ?_⟩
  · intro h
    unfold build_multipolygon
    rw [h]
  · intro g h
    unfold build_multipolygon
    rw [h]
  · intro gs ps hlen h hall
    cases gs with
    | nil => simp at hlen
    | cons x gs' =>
      cases gs' with
      | nil => simp at hlen
      | cons y t =>
        unfold build_multipolygon
        rw [h]
        simp [mkMultiPolygon, hall, Except.map]

/-- Witness for C3: a one-area zone returns its polygon unwrapped; a
two-area zone returns a two-member multipolygon. -/
theorem c3_result_shape_witness :
    build_multipolygon trivialBackend squareRecs
      = .ok (some (.atom (.poly ⟨[(1, 1), (9, 1), (9, 9), (1, 9)], []⟩)))
    ∧ build_multipolygon trivialBackend twoGoodRecs
      = .ok (some (.atom (.multipoly
          [⟨[(1, 1), (2, 1), (2, 2)], []⟩,
           ⟨[(4, 4), (6, 4), (6, 6), (4, 6)], []⟩]))) :=
  ⟨(c3_result_shape trivialBackend squareRecs).2.1 _ (by decide),
   (c3_result_shape trivialBackend twoGoodRecs).2.2
     [.poly ⟨[(1, 1), (2, 1), (2, 2)], []⟩,
      .poly ⟨[(4, 4), (6, 4), (6, 6), (4, 6)], []⟩]
     [⟨[(1, 1), (2, 1), (2, 2)], []⟩, ⟨[(4, 4), (6, 4), (6, 6), (4, 6)], []⟩]
     (by decide) (by decide) (by decide)⟩

/-- C5 counterexample: a degenerate collinear three-point exterior ring
passes construction (an open trace of 3 distinct points auto-closes to 4
coordinates) and survives orientation with signed area exactly zero, so
not every constructed area polygon's exterior has strictly positive
signed area. -/
theorem c5_exterior_positive_cex :
    areaOriented collinearExtRecs = some ⟨[(1, 1), (2, 2), (3, 3)], []⟩
    ∧ ¬ (0 < signedArea2 [(1, 1), (2, 2), (3, 3)]) := by
  decide

/-- C5 amended: normalization forces every constructed area polygon's
exterior counter-clockwise up to degeneracy — its signed area is
non-negative, and strictly positive whenever the ring is not degenerate
(non-zero area); supplying the same ring in the opposite traversal
direction yields the same exterior orientation. -/
theorem c5_orientation_normalization :
    (∀ (g : List Record) (p : Poly), areaOriented g = some p →
        0 ≤ signedArea2 p.exterior
        ∧ (signedArea2 p.exterior ≠ 0 → 0 < signedArea2 p.exterior))
    ∧ (∀ r : List Point, signedArea2 r ≠ 0 → 0 < signedArea2 (orientExterior r))
    ∧ (∀ r : List Point,
        signedArea2 (orientExterior r.reverse) = signedArea2 (orientExterior r)) := by
  refine ⟨?_, orientExterior_pos, orientExterior_reverse⟩
  intro g p h
  obtain ⟨parts, hs, hp⟩ := areaOriented_shape g p h
  subst hp
  simp only [orientPoly]
  constructor
  · exact orientExterior_nonneg _
  · intro hne
    have h1 := orientExterior_nonneg parts.exterior
    omega

/-- Witness for C5: the counter-clockwise square keeps a non-negative
(indeed positive) area; the same square supplied clockwise is normalized
to positive area. -/
theorem c5_orientation_normalization_witness :
    (0 : Int) ≤ signedArea2 [(1, 1), (9, 1), (9, 9), (1, 9)]
    ∧ (0 : Int) < signedArea2 (orientExterior [(1, 1), (1, 9), (9, 9), (9, 1)]) :=
  ⟨(c5_orientation_normalization.1 squareRecs
      ⟨[(1, 1), (9, 1), (9, 9), (1, 9)], []⟩ (by decide)).1,
   c5_orientation_normalization.2.1 _ (by decide)⟩

/-- C7: determinism of zone assembly under row reordering: two record
lists that are permutations of each other and whose area groups coincide
once sorted by sequence number produce equal geometry results, because
sort order is re-imposed per area group before ring splitting. -/
theorem c7_determinism (B : GeoBackend) (rs₁ rs₂ : List Record)
    (hperm : rs₁.Perm rs₂)
    (hgrp : ∀ a ∈ areaKeys rs₁, areaGroup rs₁ a = areaGroup rs₂ a) :
    build_multipolygon B rs₁ = build_multipolygon B rs₂ := by
  have hmemkeys : ∀ a : Int, a ∈ areaKeys rs₁ ↔ a ∈ areaKeys rs₂ := by
    intro a
    unfold areaKeys
    rw [(List.perm_insertionSort _ _).mem_iff, (List.perm_insertionSort _ _).mem_iff,
      List.mem_dedup, List.mem_dedup]
    exact (hperm.map Record.areanumber).mem_iff
  have hkeys : areaKeys rs₁ = areaKeys rs₂ := by
    unfold areaKeys
    refine List.eq_of_perm_of_sorted ?_ (List.sorted_insertionSort _ _)
      (List.sorted_insertionSort _ _)
    refine (List.perm_ext_iff_of_nodup ?_ ?_).mpr ?_
    · exact (List.perm_insertionSort _ _).nodup_iff.mpr (List.nodup_dedup _)
    · exact (List.perm_insertionSort _ _).nodup_iff.mpr (List.nodup_dedup _)
    · simpa [areaKeys] using hmemkeys
  have hmap : (areaKeys rs₁).map (fun a => areaGroup rs₁ a)
      = (areaKeys rs₂).map (fun a => areaGroup rs₂ a) := by
    rw [← hkeys]
    exact List.map_congr_left hgrp
  unfold build_multipolygon
  rw [hmap]

/-- Witness for C7: swapping the first two rows of the square zone leaves
the assembled geometry unchanged. -/
theorem c7_determinism_witness :
    build_multipolygon trivialBackend
        [⟨1, 2, 9, 1⟩, ⟨1, 1, 1, 1⟩, ⟨1, 3, 9, 9⟩, ⟨1, 4, 1, 9⟩]
      = build_multipolygon trivialBackend
        [⟨1, 1, 1, 1⟩, ⟨1, 2, 9, 1⟩, ⟨1, 3, 9, 9⟩, ⟨1, 4, 1, 9⟩] :=
  c7_determinism trivialBackend _ _ (List.Perm.swap _ _ _) (by decide)

/-- C9 counterexample: a degenerate collinear hole passes construction and
keeps signed area zero after normalization, so not every interior ring of
a normalized polygon has strictly negative signed area. -/
theorem c9_holes_negative_cex :
    areaOriented collinearHoleRecs
      = some ⟨[(1, 1), (9, 1), (9, 9), (1, 9)], [[(2, 2), (4, 4), (6, 6)]]⟩
    ∧ ¬ (signedArea2 [(2, 2), (4, 4), (6, 6)] < 0) := by
  decide

/-- C9 amended: normalization forces every hole ring clockwise up to
degeneracy: each interior ring of a constructed, normalized area polygon
has non-positive signed area, and any ring of non-zero signed area is
oriented to strictly negative signed area by the hole branch. -/
theorem c9_holes_nonpositive :
    (∀ (g : List Record) (p : Poly), areaOriented g = some p →
        ∀ r ∈ p.holes, signedArea2 r ≤ 0)
    ∧ (∀ r : List Point, signedArea2 r ≠ 0 → signedArea2 (orientHole r) < 0) := by
  refine ⟨?_, orientHole_neg⟩
  intro g p hp r hmem
  obtain ⟨parts, hs, hshape⟩ := areaOriented_shape g p hp
  subst hshape
  simp only [orientPoly] at hmem
  obtain ⟨r0, hr0, rfl⟩ := List.mem_map.mp hmem
  exact orientHole_nonpos r0

/-- Witness for amended C9: the nested-squares hole is oriented to
non-positive (clockwise) signed area. -/
theorem c9_holes_nonpositive_witness :
    signedArea2 [(3, 7), (7, 7), (7, 3), (3, 3)] ≤ 0 :=
  c9_holes_nonpositive.1 nestedRecs
    ⟨[(1, 1), (9, 1), (9, 9), (1, 9)], [[(3, 7), (7, 7), (7, 3), (3, 3)]]⟩
    (by decide) _ (by decide)

/-- C10: whenever zone assembly returns a geometry rather than the absent
result, that geometry is non-empty: every collected atom passed a
non-emptiness check, and a multipolygon assembled from non-empty polygons
is non-empty. -/
theorem c10_result_nonempty (B : GeoBackend) (rs : List Record) (g : Geom)
    (h : build_multipolygon B rs = .ok (some g)) : geomIsEmpty g = false := by
  unfold build_multipolygon at h
  split at h
  · cases h
  · exact absurd h (by simp)
  · rename_i g0 hc
    simp only [Except.ok.injEq, Option.some.injEq] at h
    subst h
    simpa [geomIsEmpty] using collectAreas_nonempty B _ _ hc g0 (by simp)
  · rename_i gs hn1 hn2 hc
    cases hall : allPolys gs with
    | error e =>
      unfold mkMultiPolygon at h
      rw [hall] at h
      simp [Except.map] at h
    | ok ps =>
      unfold mkMultiPolygon at h
      rw [hall] at h
      simp only [Except.map, Except.ok.injEq, Option.some.injEq] at h
      subst h
      have hshape := allPolys_shape _ _ hall
      have hne := collectAreas_nonempty B _ _ hc
      cases ps with
      | nil => exact absurd (by simpa using hshape) hn1
      | cons p ps' =>
        have hx : GAtom.poly p ∈ gs := by
          rw [hshape]
          simp
        have hxe := hne _ hx
        simp only [atomIsEmpty] at hxe
        simp [geomIsEmpty, atomIsEmpty, hxe]

/-- Witness for C10: the assembled square-zone geometry is non-empty. -/
theorem c10_result_nonempty_witness :
    geomIsEmpty (.atom (.poly ⟨[(1, 1), (9, 1), (9, 9), (1, 9)], []⟩)) = false :=
  c10_result_nonempty trivialBackend squareRecs _ (by decide)

end Mbr
